import Mathlib

/-!
Verification development for the iperf3 UDP bidirectional measurement script
(`udp_timeseries_iperf3.py`): a shallow embedding of its pure data-processing
core (interval extraction, transcript parsing, summary statistics and the
receiver-totals override), with theorems checking the specification's claims.

Python floats are modelled as rationals (`ℚ`); the standard deviation, which
the source computes with `statistics.pstdev` (a real square root), lives in `ℝ`.
Python dictionaries are modelled as structures with `Option`-valued fields;
a `none` sub-record models a key that is absent *or* bound to a falsy (empty)
value, which the source treats identically (`it.get(k) or ...`).
-/

/-- Interval sample as produced by the direction collectors: a dict with keys
`timestamp`, `direction`, `bandwidth_bps`, `jitter_ms`, `loss_pct`. -/
structure Sample where
  timestamp : ℚ
  direction : String
  bandwidth_bps : ℚ
  jitter_ms : ℚ
  loss_pct : ℚ
deriving DecidableEq, Repr

/-- Model of `statistics.mean`: sum divided by length (defined on any list;
the source only calls it on non-empty lists, via the `_safe_mean` guard). -/
def pymean (xs : List ℚ) : ℚ := xs.sum / xs.length

/-- Source `_safe_mean`: `mean(xs) if xs else 0.0`. -/
def safe_mean (xs : List ℚ) : ℚ := if xs.isEmpty then 0 else pymean xs

/-- Population variance, as computed inside `statistics.pstdev`:
sum of squared deviations from the mean, divided by N (not N-1). -/
def pvariance (xs : List ℚ) : ℚ :=
  ((xs.map (fun x => (x - pymean xs) ^ 2)).sum) / xs.length

/-- Source `_safe_pstdev`: `pstdev(xs) if len(xs) > 1 else 0.0`;
`statistics.pstdev` is the square root of the population variance. -/
noncomputable def safe_pstdev (xs : List ℚ) : ℝ :=
  if 1 < xs.length then Real.sqrt ((pvariance xs : ℚ) : ℝ) else 0

/-- Model of `min(xs)` guarded by `if xs else 0.0` (lines 19-20 of the source). -/
def pymin : List ℚ → ℚ
  | [] => 0
  | x :: xs => xs.foldl min x

/-- Model of `max(xs)` guarded by `if xs else 0.0`. -/
def pymax : List ℚ → ℚ
  | [] => 0
  | x :: xs => xs.foldl max x

/-- The `bandwidth_mbps` sub-dict of a direction summary: `avg`, `min`, `max`, `std`. -/
structure BwStats where
  avg : ℚ
  min : ℚ
  max : ℚ
  std : ℝ

/-- One Direction Summary: `num_samples`, bandwidth stats, `avg_jitter_ms`, `avg_loss_pct`. -/
structure DirSummary where
  num_samples : ℕ
  bandwidth_mbps : BwStats
  avg_jitter_ms : ℚ
  avg_loss_pct : ℚ

/-- Line 11 of the source: samples whose `direction` tag equals `dir`. -/
def sdirOf (samples : List Sample) (dir : String) : List Sample :=
  samples.filter (fun s => s.direction = dir)

/-- Line 12: per-sample bandwidths converted to Mbps. -/
def mbpsOf (samples : List Sample) (dir : String) : List ℚ :=
  (sdirOf samples dir).map (fun s => s.bandwidth_bps / 1000000)

/-- Source `_direction_summary` (lines 10-25). The samples handed to it by the
collectors always carry `jitter_ms`/`loss_pct`, so the `s.get(k, 0.0)` defaults
never fire and the fields are read directly. -/
noncomputable def direction_summary (samples : List Sample) (dir : String) : DirSummary :=
  { num_samples := (sdirOf samples dir).length
  , bandwidth_mbps :=
      { avg := safe_mean (mbpsOf samples dir)
      , min := pymin (mbpsOf samples dir)
      , max := pymax (mbpsOf samples dir)
      , std := safe_pstdev (mbpsOf samples dir) }
  , avg_jitter_ms := safe_mean ((sdirOf samples dir).map (fun s => s.jitter_ms))
  , avg_loss_pct := safe_mean ((sdirOf samples dir).map (fun s => s.loss_pct)) }

/-- Source `build_summary` (lines 27-32): the direction-keyed summary map. -/
structure Summary3 where
  uplink : DirSummary
  uplink_rx : DirSummary
  downlink : DirSummary

/-- Source `build_summary`. -/
noncomputable def build_summary (samples : List Sample) : Summary3 :=
  { uplink := direction_summary samples "uplink"
  , uplink_rx := direction_summary samples "uplink_rx"
  , downlink := direction_summary samples "downlink" }

/-- The `receiver_totals` record parsed from the final receiver line of the
transcript (source lines 174-180). -/
structure Totals where
  bandwidth_mbps : ℚ
  jitter_ms : ℚ
  lost_packets : ℕ
  packets : ℕ
  lost_percent : ℚ
deriving DecidableEq, Repr

/-- Source `run_udp_bi` lines 231-236: when receiver totals are present they
overwrite the uplink summary's bandwidth average, average jitter and average
loss; nothing else is touched. -/
noncomputable def ul_receiver_override (summary : Summary3) (ul_recv : Option Totals) :
    Summary3 :=
  match ul_recv with
  | none => summary
  | some t =>
      { summary with
        uplink :=
          { summary.uplink with
            bandwidth_mbps := { summary.uplink.bandwidth_mbps with avg := t.bandwidth_mbps }
            avg_jitter_ms := t.jitter_ms
            avg_loss_pct := t.lost_percent } }

/-- One aggregate sub-record of a raw interval report (the payload of
`sum_received` / `sum` / `sum_sent`, or of a stream's `sender` / `receiver`):
a dict in which each of the keys read by the extractor may be absent. -/
structure Agg where
  end_ : Option ℚ
  bits_per_second : Option ℚ
  bps : Option ℚ
  jitter_ms : Option ℚ
  lost_percent : Option ℚ
deriving DecidableEq, Repr

/-- The empty dict `{}` used as the fallback sub-record in the stream fold. -/
def emptyAgg : Agg := ⟨none, none, none, none, none⟩

/-- One entry of a report's `streams` list. A `none` sub-record models a
`sender` / `receiver` key that is absent or bound to a falsy (empty) dict,
which `s.get("sender", {}) or {}` treats identically. -/
structure StreamEntry where
  sender : Option Agg
  receiver : Option Agg
deriving DecidableEq, Repr

/-- One raw interval report. A `none` aggregate models a key that is absent or
falsy (`it.get(k) or ...` skips both); `streams = []` models an absent or empty
`streams` list. The model has no key ordering: lookups are by field name, like
Python dict lookups. -/
structure IntervalReport where
  sum_received : Option Agg
  sum : Option Agg
  sum_sent : Option Agg
  streams : List StreamEntry
deriving DecidableEq, Repr

/-- The normalized `{end, bps, jitter_ms, loss_pct}` tuple the extractor returns. -/
structure IStats where
  end_ : ℚ
  bps : ℚ
  jitter_ms : ℚ
  loss_pct : ℚ
deriving DecidableEq, Repr

/-- Source lines 35-40: the aggregate-candidate fallback chain.
`prefer_receiver` first tries `sum_received or sum`, then `sum_sent`;
otherwise `sum_sent or sum or sum_received`. -/
def candOf (it : IntervalReport) (prefer_receiver : Bool) : Option Agg :=
  if prefer_receiver then
    match it.sum_received with
    | some c => some c
    | none =>
      match it.sum with
      | some c => some c
      | none => it.sum_sent
  else
    match it.sum_sent with
    | some c => some c
    | none =>
      match it.sum with
      | some c => some c
      | none => it.sum_received

/-- Source lines 42-47: reading one aggregate sub-record, with the source's
defaults (`cand.get("end", 0.0)`, `cand.get("bits_per_second", cand.get("bps", 0.0))`,
`cand.get("jitter_ms", 0.0)`, `cand.get("lost_percent", 0.0)`). -/
def aggStats (cand : Agg) : IStats :=
  { end_ := cand.end_.getD 0
  , bps := cand.bits_per_second.getD (cand.bps.getD 0)
  , jitter_ms := cand.jitter_ms.getD 0
  , loss_pct := cand.lost_percent.getD 0 }

/-- Source line 54: `src = rcv if prefer_receiver else (snd or rcv) or {}`.
Under `prefer_receiver` the receiver sub-record is used unconditionally
(falling back to `{}`, never to the sender); otherwise the sender sub-record is
used when truthy, else the receiver one, else `{}`. -/
def streamSrc (prefer_receiver : Bool) (s : StreamEntry) : Agg :=
  if prefer_receiver then s.receiver.getD emptyAgg
  else
    match s.sender with
    | some a => a
    | none => s.receiver.getD emptyAgg

/-- The per-stream end time as folded on line 55 (`src.get("end", 0.0)`). -/
def streamEnd (prefer_receiver : Bool) (s : StreamEntry) : ℚ :=
  (streamSrc prefer_receiver s).end_.getD 0

/-- The per-stream bandwidth as folded on line 56
(`src.get("bits_per_second", src.get("bps", 0.0))`). -/
def streamBw (prefer_receiver : Bool) (s : StreamEntry) : ℚ :=
  (streamSrc prefer_receiver s).bits_per_second.getD
    ((streamSrc prefer_receiver s).bps.getD 0)

/-- The loop state of the stream fold: `end`, `bps` (numeric accumulators) and
`jitter_ms`, `loss_pct` (still `None` until the first stream defines them). -/
structure StreamAcc where
  end_ : ℚ
  bps : ℚ
  jitter_ms : Option ℚ
  lost_percent : Option ℚ
deriving DecidableEq, Repr

/-- One iteration of the stream fold, source lines 51-58. -/
def streamFoldStep (prefer_receiver : Bool) (acc : StreamAcc) (s : StreamEntry) : StreamAcc :=
  { end_ := max acc.end_ (streamEnd prefer_receiver s)
  , bps := acc.bps + streamBw prefer_receiver s
  , jitter_ms :=
      match acc.jitter_ms with
      | some v => some v
      | none => (streamSrc prefer_receiver s).jitter_ms
  , lost_percent :=
      match acc.lost_percent with
      | some v => some v
      | none => (streamSrc prefer_receiver s).lost_percent }

/-- Source `_extract_interval_stats` (lines 34-60). The final
`float(jitter_ms or 0.0)` coincides with `getD 0`: a stored `0.0` is falsy in
Python but `0.0 or 0.0` is again `0.0`. -/
def extract_interval_stats (it : IntervalReport) (prefer_receiver : Bool) : IStats :=
  match candOf it prefer_receiver with
  | some c => aggStats c
  | none =>
    match it.streams with
    | [] => ⟨0, 0, 0, 0⟩
    | s :: rest =>
      let r := (s :: rest).foldl (streamFoldStep prefer_receiver) ⟨0, 0, none, none⟩
      ⟨r.end_, r.bps, r.jitter_ms.getD 0, r.lost_percent.getD 0⟩

/-- One tuple produced by the transcript parser (source lines 81-85). -/
structure Point where
  start : ℚ
  end_ : ℚ
  bandwidth_mbps : ℚ
  jitter_ms : ℚ
  loss_pct : ℚ
deriving DecidableEq, Repr

/-- Source lines 136-142: the receiver-view sample built from one transcript
tuple, stamped `timestamp = start_ts + end` and tagged `uplink_rx`. -/
def sampleOfPoint (start_ts : ℚ) (pt : Point) : Sample :=
  { timestamp := start_ts + pt.end_
  , direction := "uplink_rx"
  , bandwidth_bps := pt.bandwidth_mbps * 1000000
  , jitter_ms := pt.jitter_ms
  , loss_pct := pt.loss_pct }

/-- Source lines 130-142 of `_ul_via_cli`: the loop that turns transcript
tuples into `uplink_rx` samples, skipping (`continue`) any tuple whose end time
exceeds `duration + 0.5`. -/
def ul_rx_samples (start_ts duration : ℚ) (rx_points : List Point) : List Sample :=
  rx_points.foldl
    (fun acc pt =>
      if duration + 1/2 < pt.end_ then acc else acc ++ [sampleOfPoint start_ts pt])
    []

/-- ASCII case-folding on character codes, as applied by the pattern's
IGNORECASE flag: uppercase letters A-Z map to their lowercase forms. -/
def lowerCode (n : ℕ) : ℕ := if 65 ≤ n ∧ n ≤ 90 then n + 32 else n

/-- Case-insensitive character comparison (IGNORECASE). -/
def ciEq (a b : Char) : Bool := lowerCode a.toNat == lowerCode b.toNat

/-- Matching a literal pattern fragment, character by character,
case-insensitively; returns the remaining input on success. -/
def matchLit : List Char → List Char → Option (List Char)
  | [], cs => some cs
  | _ :: _, [] => none
  | l :: ls, c :: cs => if ciEq l c then matchLit ls cs else none

/-- The three character classes used by the pattern. -/
inductive CClass where
  | ws
  | digit
  | digitdot
deriving DecidableEq, Repr

/-- Membership in a character class: the whitespace class models the ASCII
part of the regex class for blanks (space, tab, newline, carriage return,
vertical tab, form feed); the others are the digit class and the digit-or-dot
class of the pattern. -/
def cmem : CClass → Char → Bool
  | CClass.ws, c =>
      c == ' ' || c == '\t' || c == '\n' || c == '\r' || c == '\x0b' || c == '\x0c'
  | CClass.digit, c => c.isDigit
  | CClass.digitdot, c => c.isDigit || c == '.'

/-- All ways a greedy star over a class can split the input into a consumed
run and a remainder, longest consumption first (the backtracking order). -/
def greedySplits (p : Char → Bool) : List Char → List (List Char × List Char)
  | [] => [([], [])]
  | c :: cs =>
      if p c then
        ((greedySplits p cs).map (fun q => (c :: q.1, q.2))) ++ [([], c :: cs)]
      else [([], c :: cs)]

/-- The greedy-plus splits: the greedy-star splits that consume something. -/
def greedyPlus (p : Char → Bool) (cs : List Char) : List (List Char × List Char) :=
  (greedySplits p cs).filter (fun q => !q.1.isEmpty)

/-- One token of the interval-line pattern: a case-insensitive literal, a
star or plus over a character class (a plus may capture its run), a captured
decimal of shape digits-dot-digits, or the end anchor. -/
inductive RTok where
  | lit (s : String)
  | star (c : CClass)
  | plus (c : CClass) (capture : Bool)
  | decimal
  | endAnchor
deriving DecidableEq, Repr

/-- Running a token list over the input: returns every way the tokens can
match a prefix of the input, as (captured groups, remaining input) pairs,
in backtracking priority order (greedy alternatives first). The end anchor
accepts the end of the string or a lone trailing newline, like the
unanchored-mode dollar of the pattern. -/
def runToks : List RTok → List Char → List (List (List Char) × List Char)
  | [], cs => [([], cs)]
  | RTok.lit s :: ts, cs =>
      match matchLit s.toList cs with
      | some r => runToks ts r
      | none => []
  | RTok.star c :: ts, cs =>
      (greedySplits (cmem c) cs).flatMap (fun q => runToks ts q.2)
  | RTok.plus c cap :: ts, cs =>
      (greedyPlus (cmem c) cs).flatMap (fun q =>
        if cap then (runToks ts q.2).map (fun m => (q.1 :: m.1, m.2))
        else runToks ts q.2)
  | RTok.decimal :: ts, cs =>
      (greedyPlus (cmem CClass.digit) cs).flatMap (fun q =>
        match q.2 with
        | d :: r2 =>
            if d = '.' then
              (greedyPlus (cmem CClass.digit) r2).flatMap (fun q2 =>
                (runToks ts q2.2).map (fun m => ((q.1 ++ '.' :: q2.1) :: m.1, m.2)))
            else []
        | [] => [])
  | RTok.endAnchor :: ts, cs =>
      if cs = [] ∨ cs = ['\n'] then runToks ts cs else []

/-- The tokens of `_RX_CLI_RECV_INTERVAL` (source lines 63-68) up to the
percent sign: bracketed stream index, the two captured interval bounds, the
captured MBytes / Mbits-per-sec / ms fields, the lost/total counts, and the
opening parenthesis with the captured loss percentage. -/
def RX_INIT : List RTok :=
  [ RTok.lit "[", RTok.star CClass.ws, RTok.plus CClass.digit false, RTok.lit "]",
    RTok.star CClass.ws, RTok.decimal, RTok.lit "-", RTok.decimal,
    RTok.star CClass.ws, RTok.lit "sec", RTok.plus CClass.ws false,
    RTok.plus CClass.digitdot true, RTok.star CClass.ws, RTok.lit "MBytes",
    RTok.plus CClass.ws false, RTok.plus CClass.digitdot true,
    RTok.star CClass.ws, RTok.lit "Mbits/sec", RTok.plus CClass.ws false,
    RTok.plus CClass.digitdot true, RTok.star CClass.ws, RTok.lit "ms",
    RTok.plus CClass.ws false, RTok.plus CClass.digit true, RTok.lit "/",
    RTok.plus CClass.digit true, RTok.star CClass.ws, RTok.lit "(",
    RTok.plus CClass.digitdot true ]

/-- The closing tokens of the pattern: the percent sign, the closing
parenthesis, optional blanks, and the end-of-line anchor. -/
def RX_TAIL : List RTok :=
  [ RTok.lit "%", RTok.lit ")", RTok.star CClass.ws, RTok.endAnchor ]

/-- Source `_RX_CLI_RECV_INTERVAL`: the full per-interval receiver-line
pattern, anchored at line end. -/
def RX_CLI_RECV_INTERVAL : List RTok := RX_INIT ++ RX_TAIL

/-- The search over start positions: like an unanchored pattern search, try
the pattern at every suffix, leftmost first, and return the captured groups of
the first (leftmost, then greedy-preferred) match. -/
def rxSearch : List Char → Option (List (List Char))
  | [] => (runToks RX_CLI_RECV_INTERVAL []).head?.map (fun m => m.1)
  | c :: cs =>
      match (runToks RX_CLI_RECV_INTERVAL (c :: cs)).head? with
      | some m => some m.1
      | none => rxSearch cs

/-- Decimal digit-run value, for the `int(...)` conversions. -/
def digitsVal (cs : List Char) : ℕ := cs.foldl (fun n c => 10 * n + (c.toNat - 48)) 0

/-- Model of Python `float(...)` on the digit-and-dot strings the captures can
produce: defined exactly when there is at least one digit and at most one dot
(otherwise `float` raises), yielding the rational value. -/
def parseFloatQ (cs : List Char) : Option ℚ :=
  if cs ≠ [] ∧ cs.all (fun c => c.isDigit || c == '.') ∧
      (cs.filter (fun c => c == '.')).length ≤ 1 ∧ cs.any (fun c => c.isDigit) then
    match cs.dropWhile (fun c => !(c == '.')) with
    | [] => some ((digitsVal cs : ℕ) : ℚ)
    | _ :: frac =>
        some (((digitsVal (cs.takeWhile (fun c => !(c == '.'))) : ℕ) : ℚ)
          + ((digitsVal frac : ℕ) : ℚ) / (10 : ℚ) ^ frac.length)
  else none

/-- Source lines 76-85: building one parsed tuple from the eight captured
groups. Groups 1, 2, 4, 5 are float-converted (group 3, the MBytes figure, is
never read); groups 6 and 7 are int-converted; the loss percentage is group 8
when the total packet count is positive, else 0. A failed float conversion
models the exception Python would raise. -/
def pointOfGroups (gs : List (List Char)) : Option Point :=
  match gs with
  | [g1, g2, _g3, g4, g5, _g6, g7, g8] =>
      match parseFloatQ g1, parseFloatQ g2, parseFloatQ g4, parseFloatQ g5 with
      | some st, some en, some bw, some j =>
          match (if 0 < digitsVal g7 then parseFloatQ g8 else some 0) with
          | some pct => some ⟨st, en, bw, j, pct⟩
          | none => none
      | _, _, _, _ => none
  | _ => none

/-- Python line terminators handled by `str.splitlines` (ASCII range; the
carriage return and the CRLF pair are handled separately). -/
def isLineBreak (c : Char) : Bool :=
  c == '\n' || c == '\x0b' || c == '\x0c' || c == '\x1c' || c == '\x1d' ||
    c == '\x1e' || c == '\x85' || c == '\u2028' || c == '\u2029'

/-- Splitting into lines at terminators (CRLF counts as one terminator); a
trailing empty piece is produced when the text ends in a terminator and is
dropped by `splitlines` below, as Python does. -/
def splitlinesAux : List Char → List Char → List (List Char)
  | cur, [] => [cur.reverse]
  | cur, '\r' :: '\n' :: rest => cur.reverse :: splitlinesAux [] rest
  | cur, c :: rest =>
      if c == '\r' || isLineBreak c then cur.reverse :: splitlinesAux [] rest
      else splitlinesAux (c :: cur) rest

/-- Model of Python `str.splitlines`. -/
def splitlines (s : String) : List String :=
  if s = "" then []
  else
    let parts := splitlinesAux [] s.toList
    let parts :=
      match s.toList.getLast? with
      | some c => if c == '\r' || isLineBreak c then parts.dropLast else parts
      | none => parts
    parts.map (fun l => String.mk l)

/-- The loop of `_parse_receiver_interval_lines` (source lines 73-85): lines
that do not match the pattern are skipped; a matching line is converted to a
tuple and appended, and a failed conversion (a raised exception) aborts the
whole parse. -/
def parsePoints : List String → List Point → Option (List Point)
  | [], acc => some acc
  | line :: rest, acc =>
      match rxSearch line.toList with
      | none => parsePoints rest acc
      | some gs =>
          match pointOfGroups gs with
          | some pt => parsePoints rest (acc ++ [pt])
          | none => none

/-- Source `_parse_receiver_interval_lines` (lines 70-86). -/
def parse_receiver_interval_lines (text : String) : Option (List Point) :=
  if text = "" then some []
  else parsePoints (splitlines text) []

/-- C1: a direction tag with no matching samples yields the all-zero summary;
the source's guards (`_safe_mean`, `_safe_pstdev`, `if mbps else 0.0`) make the
empty group total, so no error is possible. -/
theorem empty_direction_all_zero (samples : List Sample) (dir : String)
    (h : sdirOf samples dir = []) :
    direction_summary samples dir =
      ⟨0, ⟨0, 0, 0, (0 : ℝ)⟩, 0, 0⟩ := by
  unfold direction_summary mbpsOf
  rw [h]
  simp [safe_mean, safe_pstdev, pymin, pymax]

/-- Witness for C1 at a concrete sample list containing only downlink samples. -/
theorem empty_direction_all_zero_witness :
    sdirOf [⟨5, "downlink", 1000000, 2, 1⟩] "uplink" = [] ∧
      direction_summary [⟨5, "downlink", 1000000, 2, 1⟩] "uplink" =
        ⟨0, ⟨0, 0, 0, (0 : ℝ)⟩, 0, 0⟩ :=
  ⟨by decide, empty_direction_all_zero [⟨5, "downlink", 1000000, 2, 1⟩] "uplink" (by decide)⟩

/-- C3: the receiver-totals override rewrites exactly the uplink bandwidth
average, average jitter and average loss; the uplink sample count, bandwidth
min/max/std, and the entire uplink_rx and downlink summaries are untouched. -/
theorem override_touches_only_averages (summary : Summary3) (t : Totals) :
    (ul_receiver_override summary (some t)).uplink.bandwidth_mbps.avg = t.bandwidth_mbps ∧
    (ul_receiver_override summary (some t)).uplink.avg_jitter_ms = t.jitter_ms ∧
    (ul_receiver_override summary (some t)).uplink.avg_loss_pct = t.lost_percent ∧
    (ul_receiver_override summary (some t)).uplink.num_samples = summary.uplink.num_samples ∧
    (ul_receiver_override summary (some t)).uplink.bandwidth_mbps.min =
      summary.uplink.bandwidth_mbps.min ∧
    (ul_receiver_override summary (some t)).uplink.bandwidth_mbps.max =
      summary.uplink.bandwidth_mbps.max ∧
    (ul_receiver_override summary (some t)).uplink.bandwidth_mbps.std =
      summary.uplink.bandwidth_mbps.std ∧
    (ul_receiver_override summary (some t)).uplink_rx = summary.uplink_rx ∧
    (ul_receiver_override summary (some t)).downlink = summary.downlink := by
  unfold ul_receiver_override
  exact ⟨rfl, rfl, rfl, rfl, rfl, rfl, rfl, rfl, rfl⟩

/-- C8: applying the receiver-totals override twice (with the same record, or
with none at all) gives the same summary map as applying it once. -/
theorem override_idempotent (summary : Summary3) (o : Option Totals) :
    ul_receiver_override (ul_receiver_override summary o) o =
      ul_receiver_override summary o := by
  cases o with
  | none => rfl
  | some t => rfl

/-- Helper: with all three aggregate keys absent or falsy, the candidate chain
of lines 35-40 yields nothing, for either preference. -/
theorem candOf_none (it : IntervalReport) (pr : Bool)
    (h1 : it.sum_received = none) (h2 : it.sum = none) (h3 : it.sum_sent = none) :
    candOf it pr = none := by
  cases pr <;> simp [candOf, h1, h2, h3]

/-- Helper: with no aggregate candidate, the extractor is the stream fold
(which, over an empty `streams` list, is the zero tuple). -/
theorem extract_eq_fold (it : IntervalReport) (pr : Bool) (h : candOf it pr = none) :
    extract_interval_stats it pr =
      ⟨(it.streams.foldl (streamFoldStep pr) ⟨0, 0, none, none⟩).end_,
       (it.streams.foldl (streamFoldStep pr) ⟨0, 0, none, none⟩).bps,
       ((it.streams.foldl (streamFoldStep pr) ⟨0, 0, none, none⟩).jitter_ms).getD 0,
       ((it.streams.foldl (streamFoldStep pr) ⟨0, 0, none, none⟩).lost_percent).getD 0⟩ := by
  unfold extract_interval_stats
  rw [h]
  cases hs : it.streams with
  | nil => rfl
  | cons s rest => rfl

/-- Helper: the `end` accumulator of the stream fold is a running `max`. -/
theorem foldl_step_end (pr : Bool) (ss : List StreamEntry) :
    ∀ acc : StreamAcc,
      (ss.foldl (streamFoldStep pr) acc).end_ =
        (ss.map (streamEnd pr)).foldl max acc.end_ := by
  induction ss with
  | nil => intro acc; rfl
  | cons s rest ih =>
      intro acc
      rw [List.foldl_cons, ih, List.map_cons, List.foldl_cons]
      rfl

/-- Helper: the `bps` accumulator of the stream fold is a running sum. -/
theorem foldl_step_bps (pr : Bool) (ss : List StreamEntry) :
    ∀ acc : StreamAcc,
      (ss.foldl (streamFoldStep pr) acc).bps =
        acc.bps + (ss.map (streamBw pr)).sum := by
  induction ss with
  | nil => intro acc; simp
  | cons s rest ih =>
      intro acc
      rw [List.foldl_cons, ih, List.map_cons, List.sum_cons]
      show acc.bps + streamBw pr s + _ = _
      ring

/-- Helper: once the folded `jitter_ms` is set it is never replaced. -/
theorem foldl_step_jitter_some (pr : Bool) (ss : List StreamEntry) :
    ∀ (acc : StreamAcc) (v : ℚ), acc.jitter_ms = some v →
      (ss.foldl (streamFoldStep pr) acc).jitter_ms = some v := by
  induction ss with
  | nil => intro acc v h; exact h
  | cons s rest ih =>
      intro acc v h
      rw [List.foldl_cons]
      exact ih _ v (by simp [streamFoldStep, h])

/-- Helper: starting unset, the folded `jitter_ms` is the first stream value
that is present. -/
theorem foldl_step_jitter_none (pr : Bool) (ss : List StreamEntry) :
    ∀ acc : StreamAcc, acc.jitter_ms = none →
      (ss.foldl (streamFoldStep pr) acc).jitter_ms =
        ss.findSome? (fun s => (streamSrc pr s).jitter_ms) := by
  induction ss with
  | nil => intro acc h; simpa using h
  | cons s rest ih =>
      intro acc h
      rw [List.foldl_cons, List.findSome?_cons]
      cases hj : (streamSrc pr s).jitter_ms with
      | some v => exact foldl_step_jitter_some pr rest _ v (by simp [streamFoldStep, h, hj])
      | none => exact ih _ (by simp [streamFoldStep, h, hj])

/-- Helper: once the folded `loss_pct` is set it is never replaced. -/
theorem foldl_step_lost_some (pr : Bool) (ss : List StreamEntry) :
    ∀ (acc : StreamAcc) (v : ℚ), acc.lost_percent = some v →
      (ss.foldl (streamFoldStep pr) acc).lost_percent = some v := by
  induction ss with
  | nil => intro acc v h; exact h
  | cons s rest ih =>
      intro acc v h
      rw [List.foldl_cons]
      exact ih _ v (by simp [streamFoldStep, h])

/-- Helper: starting unset, the folded `loss_pct` is the first stream value
that is present. -/
theorem foldl_step_lost_none (pr : Bool) (ss : List StreamEntry) :
    ∀ acc : StreamAcc, acc.lost_percent = none →
      (ss.foldl (streamFoldStep pr) acc).lost_percent =
        ss.findSome? (fun s => (streamSrc pr s).lost_percent) := by
  induction ss with
  | nil => intro acc h; simpa using h
  | cons s rest ih =>
      intro acc h
      rw [List.foldl_cons, List.findSome?_cons]
      cases hj : (streamSrc pr s).lost_percent with
      | some v => exact foldl_step_lost_some pr rest _ v (by simp [streamFoldStep, h, hj])
      | none => exact ih _ (by simp [streamFoldStep, h, hj])

/-- Helper: a running `max` dominates its start value. -/
theorem foldl_max_init_le (l : List ℚ) : ∀ a : ℚ, a ≤ l.foldl max a := by
  induction l with
  | nil => intro a; exact le_refl a
  | cons b t ih => intro a; exact le_trans (le_max_left a b) (ih (max a b))

/-- Helper: a running `max` dominates every list element. -/
theorem foldl_max_le_of_mem (l : List ℚ) :
    ∀ (a x : ℚ), x ∈ l → x ≤ l.foldl max a := by
  induction l with
  | nil => intro a x hx; cases hx
  | cons b t ih =>
      intro a x hx
      rw [List.foldl_cons]
      rcases List.mem_cons.mp hx with rfl | hx
      · exact le_trans (le_max_right a x) (foldl_max_init_le t (max a x))
      · exact ih (max a b) x hx

/-- Helper: a running `max` is its start value or some list element. -/
theorem foldl_max_mem_or (l : List ℚ) :
    ∀ a : ℚ, l.foldl max a = a ∨ l.foldl max a ∈ l := by
  induction l with
  | nil => intro a; exact Or.inl rfl
  | cons b t ih =>
      intro a
      rw [List.foldl_cons]
      rcases ih (max a b) with h | h
      · rcases max_choice a b with hm | hm
        · exact Or.inl (h.trans hm)
        · exact Or.inr (List.mem_cons.mpr (Or.inl (h.trans hm)))
      · exact Or.inr (List.mem_cons.mpr (Or.inr h))

/-- C2: a report carrying both a truthy receiver aggregate and a truthy sender
aggregate is read from the receiver one under `prefer_receiver = true` and from
the sender one under `prefer_receiver = false`; the model looks fields up by
name, so dict key order cannot influence the result. -/
theorem extract_prefers (it : IntervalReport) (r s : Agg)
    (hr : it.sum_received = some r) (hs : it.sum_sent = some s) :
    extract_interval_stats it true = aggStats r ∧
      extract_interval_stats it false = aggStats s := by
  constructor
  · unfold extract_interval_stats candOf
    rw [hr]
    rfl
  · unfold extract_interval_stats candOf
    rw [hs]
    rfl

/-- Witness for C2: a concrete report holding distinct receiver and sender
aggregates (and also a generic `sum`, which must be ignored in both modes). -/
theorem extract_prefers_witness :
    extract_interval_stats
        ⟨some ⟨some 1, some 100, none, some 2, some 3⟩,
         some ⟨some 9, some 900, none, some 9, some 9⟩,
         some ⟨some 5, some 500, none, some 6, some 7⟩, []⟩ true = ⟨1, 100, 2, 3⟩ ∧
      extract_interval_stats
        ⟨some ⟨some 1, some 100, none, some 2, some 3⟩,
         some ⟨some 9, some 900, none, some 9, some 9⟩,
         some ⟨some 5, some 500, none, some 6, some 7⟩, []⟩ false = ⟨5, 500, 6, 7⟩ := by
  have h := extract_prefers
    ⟨some ⟨some 1, some 100, none, some 2, some 3⟩,
     some ⟨some 9, some 900, none, some 9, some 9⟩,
     some ⟨some 5, some 500, none, some 6, some 7⟩, []⟩
    ⟨some 1, some 100, none, some 2, some 3⟩ ⟨some 5, some 500, none, some 6, some 7⟩
    rfl rfl
  exact ⟨h.1.trans (by decide), h.2.trans (by decide)⟩

/-- C6: a report with no truthy aggregate sub-record and no (non-empty)
`streams` list yields the zero tuple; the extractor is total, so no error. -/
theorem extract_zero_fill (it : IntervalReport) (pr : Bool)
    (h1 : it.sum_received = none) (h2 : it.sum = none) (h3 : it.sum_sent = none)
    (h4 : it.streams = []) :
    extract_interval_stats it pr = ⟨0, 0, 0, 0⟩ := by
  rw [extract_eq_fold it pr (candOf_none it pr h1 h2 h3), h4]
  rfl

/-- Witness for C6: the fully-empty report. -/
theorem extract_zero_fill_witness :
    extract_interval_stats ⟨none, none, none, []⟩ true = ⟨0, 0, 0, 0⟩ :=
  extract_zero_fill ⟨none, none, none, []⟩ true rfl rfl rfl rfl

/-- C4: with no aggregate sub-record and a non-empty `streams` list, the
extractor folds the streams: `end` is the running max (hence an upper bound of
all per-stream ends, attained by one of them unless it stays 0), `bps` is the
sum of the per-stream bandwidths, and `jitter_ms`/`loss_pct` are the first
per-stream values that are present (not summed, not averaged). -/
theorem extract_streams_fold (it : IntervalReport) (pr : Bool)
    (h1 : it.sum_received = none) (h2 : it.sum = none) (h3 : it.sum_sent = none)
    (_hne : it.streams ≠ []) :
    extract_interval_stats it pr =
      ⟨(it.streams.map (streamEnd pr)).foldl max 0,
       (it.streams.map (streamBw pr)).sum,
       (it.streams.findSome? (fun s => (streamSrc pr s).jitter_ms)).getD 0,
       (it.streams.findSome? (fun s => (streamSrc pr s).lost_percent)).getD 0⟩ ∧
    (∀ s ∈ it.streams, streamEnd pr s ≤ (extract_interval_stats it pr).end_) ∧
    ((extract_interval_stats it pr).end_ = 0 ∨
      ∃ s ∈ it.streams, (extract_interval_stats it pr).end_ = streamEnd pr s) := by
  have hmain :
      extract_interval_stats it pr =
        ⟨(it.streams.map (streamEnd pr)).foldl max 0,
         (it.streams.map (streamBw pr)).sum,
         (it.streams.findSome? (fun s => (streamSrc pr s).jitter_ms)).getD 0,
         (it.streams.findSome? (fun s => (streamSrc pr s).lost_percent)).getD 0⟩ := by
    rw [extract_eq_fold it pr (candOf_none it pr h1 h2 h3)]
    rw [foldl_step_end, foldl_step_bps, foldl_step_jitter_none pr _ _ rfl,
        foldl_step_lost_none pr _ _ rfl]
    show IStats.mk _ (0 + _) _ _ = _
    rw [zero_add]
  refine ⟨hmain, ?_, ?_⟩
  · intro s hs
    rw [hmain]
    exact foldl_max_le_of_mem _ 0 _ (List.mem_map_of_mem _ hs)
  · rw [hmain]
    rcases foldl_max_mem_or (it.streams.map (streamEnd pr)) 0 with h | h
    · exact Or.inl h
    · rcases List.mem_map.mp h with ⟨s, hs, hv⟩
      exact Or.inr ⟨s, hs, hv.symm⟩

/-- Witness for C4: two streams with receiver bandwidths 100e6 and 150e6 bps
sum to 250e6; `end` is the larger of the two end times and `jitter_ms` /
`loss_pct` come from the first stream that defines them. -/
theorem extract_streams_fold_witness :
    extract_interval_stats
        ⟨none, none, none,
         [⟨none, some ⟨some 1, some 100000000, none, none, some 3⟩⟩,
          ⟨none, some ⟨some 2, some 150000000, none, some (1/2), some 9⟩⟩]⟩ true =
      ⟨2, 250000000, 1/2, 3⟩ := by
  have h := (extract_streams_fold
    ⟨none, none, none,
     [⟨none, some ⟨some 1, some 100000000, none, none, some 3⟩⟩,
      ⟨none, some ⟨some 2, some 150000000, none, some (1/2), some 9⟩⟩]⟩ true
    rfl rfl rfl (by decide)).1
  refine h.trans ?_
  simp [streamEnd, streamBw, streamSrc, List.findSome?_cons, IStats.mk.injEq]
  norm_num

/-- C7: the uplink receiver-view loop keeps exactly the transcript tuples whose
end time is at most `duration + 0.5`, turning each into an `uplink_rx` sample
stamped `start_ts + end`; later tuples are discarded. -/
theorem ul_rx_filter_map (start_ts duration : ℚ) (rx_points : List Point) :
    ul_rx_samples start_ts duration rx_points =
      (rx_points.filter (fun pt => pt.end_ ≤ duration + 1/2)).map
        (sampleOfPoint start_ts) := by
  have haux : ∀ (pts : List Point) (acc : List Sample),
      pts.foldl
          (fun acc pt =>
            if duration + 1/2 < pt.end_ then acc else acc ++ [sampleOfPoint start_ts pt])
          acc =
        acc ++ (pts.filter (fun pt => pt.end_ ≤ duration + 1/2)).map
          (sampleOfPoint start_ts) := by
    intro pts
    induction pts with
    | nil => intro acc; simp
    | cons pt rest ih =>
        intro acc
        rw [List.foldl_cons]
        by_cases h : duration + 1/2 < pt.end_
        · rw [if_pos h, ih, List.filter_cons]
          have hc : decide (pt.end_ ≤ duration + 1/2) = false := by
            simpa using not_le.mpr h
          rw [hc, if_neg Bool.false_ne_true]
        · rw [if_neg h, ih, List.filter_cons]
          have hc : decide (pt.end_ ≤ duration + 1/2) = true := by
            simpa using not_lt.mp h
          rw [hc, if_pos rfl, List.map_cons, List.append_assoc, List.singleton_append]
  exact haux rx_points []

/-- Helper: one fold step only looks at a stream through `streamSrc`. -/
theorem streamFoldStep_congr (pr : Bool) (s s' : StreamEntry)
    (h : streamSrc pr s = streamSrc pr s') (acc : StreamAcc) :
    streamFoldStep pr acc s = streamFoldStep pr acc s' := by
  unfold streamFoldStep streamEnd streamBw
  rw [h]

/-- Helper: replacing one stream by another with the same selected sub-record
leaves the whole fold unchanged. -/
theorem foldl_step_middle_congr (pr : Bool) (s s' : StreamEntry)
    (h : streamSrc pr s = streamSrc pr s') (l1 l2 : List StreamEntry) (acc : StreamAcc) :
    (l1 ++ s :: l2).foldl (streamFoldStep pr) acc =
      (l1 ++ s' :: l2).foldl (streamFoldStep pr) acc := by
  rw [List.foldl_append, List.foldl_append, List.foldl_cons, List.foldl_cons,
      streamFoldStep_congr pr s s' h]

/-- Helper: the `end` accumulator of the fold never drops below its start. -/
theorem foldl_end_le (pr : Bool) (ss : List StreamEntry) (acc : StreamAcc) :
    acc.end_ ≤ (ss.foldl (streamFoldStep pr) acc).end_ := by
  rw [foldl_step_end]
  exact foldl_max_init_le _ _

/-- Helper: a stream whose selected sub-record is the empty dict is a no-op of
the fold (once the running `end` is non-negative, which it always is). -/
theorem streamFoldStep_emptyAgg (pr : Bool) (s : StreamEntry)
    (h : streamSrc pr s = emptyAgg) (acc : StreamAcc) (hacc : 0 ≤ acc.end_) :
    streamFoldStep pr acc s = acc := by
  have he : streamEnd pr s = 0 := by unfold streamEnd; rw [h]; rfl
  have hb : streamBw pr s = 0 := by unfold streamBw; rw [h]; rfl
  have hj : (streamSrc pr s).jitter_ms = none := by rw [h]; rfl
  have hl : (streamSrc pr s).lost_percent = none := by rw [h]; rfl
  unfold streamFoldStep
  rw [he, hb, hj, hl, add_zero, max_eq_left hacc]
  cases acc with
  | mk e b j l => cases j <;> cases l <;> rfl

/-- Helper: a stream whose selected sub-record is the empty dict leaves the
whole fold unchanged. -/
theorem foldl_step_empty_drop (pr : Bool) (s : StreamEntry)
    (h : streamSrc pr s = emptyAgg) (l1 l2 : List StreamEntry) (acc : StreamAcc)
    (hacc : 0 ≤ acc.end_) :
    (l1 ++ s :: l2).foldl (streamFoldStep pr) acc =
      (l1 ++ l2).foldl (streamFoldStep pr) acc := by
  rw [List.foldl_append, List.foldl_append, List.foldl_cons,
      streamFoldStep_emptyAgg pr s h _ (le_trans hacc (foldl_end_le pr l1 acc))]

/-- C10: inside the per-stream fold, `prefer_receiver = true` reads only the
receiver sub-record — a stream with only sender data contributes nothing, so
dropping it changes nothing — while `prefer_receiver = false` reads the sender
sub-record when present (its receiver data is irrelevant) and falls back to the
receiver sub-record exactly when the sender one is absent or empty. -/
theorem stream_view_selection (it : IntervalReport) (l1 l2 : List StreamEntry)
    (s : StreamEntry)
    (h1 : it.sum_received = none) (h2 : it.sum = none) (h3 : it.sum_sent = none)
    (hs : it.streams = l1 ++ s :: l2) :
    (s.receiver = none →
      extract_interval_stats it true =
        extract_interval_stats { it with streams := l1 ++ l2 } true) ∧
    (∀ a : Agg, s.sender = some a →
      extract_interval_stats it false =
        extract_interval_stats { it with streams := l1 ++ ⟨some a, none⟩ :: l2 } false) ∧
    (s.sender = none →
      extract_interval_stats it false =
        extract_interval_stats { it with streams := l1 ++ ⟨s.receiver, none⟩ :: l2 } false) := by
  have hc : ∀ pr, candOf it pr = none := fun pr => candOf_none it pr h1 h2 h3
  have hc' : ∀ (ss : List StreamEntry) (pr : Bool),
      candOf { it with streams := ss } pr = none := fun ss pr => candOf_none _ pr h1 h2 h3
  refine ⟨?_, ?_, ?_⟩
  · intro hrcv
    rw [extract_eq_fold it true (hc true), extract_eq_fold _ true (hc' (l1 ++ l2) true)]
    have hempty : streamSrc true s = emptyAgg := by
      unfold streamSrc
      rw [hrcv]
      rfl
    rw [show ({ it with streams := l1 ++ l2 } : IntervalReport).streams = l1 ++ l2 from rfl,
        hs, foldl_step_empty_drop true s hempty l1 l2 _ (le_refl 0)]
  · intro a hsnd
    rw [extract_eq_fold it false (hc false),
        extract_eq_fold _ false (hc' (l1 ++ ⟨some a, none⟩ :: l2) false)]
    have hsame : streamSrc false s = streamSrc false ⟨some a, none⟩ := by
      unfold streamSrc
      rw [hsnd]
      rfl
    rw [show ({ it with streams := l1 ++ ⟨some a, none⟩ :: l2 } : IntervalReport).streams
          = l1 ++ ⟨some a, none⟩ :: l2 from rfl,
        hs, foldl_step_middle_congr false s ⟨some a, none⟩ hsame]
  · intro hsnd
    rw [extract_eq_fold it false (hc false),
        extract_eq_fold _ false (hc' (l1 ++ ⟨s.receiver, none⟩ :: l2) false)]
    have hsame : streamSrc false s = streamSrc false ⟨s.receiver, none⟩ := by
      unfold streamSrc
      rw [hsnd]
      cases s.receiver <;> rfl
    rw [show ({ it with streams := l1 ++ ⟨s.receiver, none⟩ :: l2 } : IntervalReport).streams
          = l1 ++ ⟨s.receiver, none⟩ :: l2 from rfl,
        hs, foldl_step_middle_congr false s ⟨s.receiver, none⟩ hsame]

/-- Witness for C10: a single sender-only stream contributes nothing under
`prefer_receiver = true`: the report behaves as if its `streams` were empty. -/
theorem stream_view_selection_witness :
    extract_interval_stats
        ⟨none, none, none, [⟨some ⟨some 7, some 777, none, some 1, some 2⟩, none⟩]⟩ true =
      extract_interval_stats ⟨none, none, none, []⟩ true :=
  (stream_view_selection
    ⟨none, none, none, [⟨some ⟨some 7, some 777, none, some 1, some 2⟩, none⟩]⟩
    [] [] ⟨some ⟨some 7, some 777, none, some 1, some 2⟩, none⟩
    rfl rfl rfl rfl).1 rfl

/-- Helper: the rational-to-real cast distributes over list sums. -/
theorem cast_list_sum (l : List ℚ) :
    ((l.sum : ℚ) : ℝ) = (l.map (fun x : ℚ => (x : ℝ))).sum := by
  induction l with
  | nil => simp
  | cons a t ih => rw [List.sum_cons, List.map_cons, List.sum_cons, Rat.cast_add, ih]

/-- Helper: the population variance is a sum of squares over a non-negative
count, hence non-negative. -/
theorem pvariance_nonneg (xs : List ℚ) : 0 ≤ pvariance xs := by
  unfold pvariance
  apply div_nonneg
  · apply List.sum_nonneg
    intro x hx
    rcases List.mem_map.mp hx with ⟨y, _, rfl⟩
    exact sq_nonneg _
  · exact Nat.cast_nonneg _

/-- Helper: the real value of the rational population variance is the real
population-variance formula over the same list. -/
theorem cast_pvariance (xs : List ℚ) :
    ((pvariance xs : ℚ) : ℝ) =
      ((xs.map (fun x : ℚ =>
          ((x : ℝ) - (xs.map (fun y : ℚ => (y : ℝ))).sum / xs.length) ^ 2)).sum)
        / xs.length := by
  unfold pvariance pymean
  push_cast [cast_list_sum, List.map_map]
  refine congrArg (fun z : ℝ => z / (xs.length : ℝ)) ?_
  refine congrArg List.sum ?_
  apply List.map_congr_left
  intro x _
  simp only [Function.comp_apply]
  push_cast [cast_list_sum]
  ring

/-- C9: the bandwidth standard deviation of a direction summary is
non-negative, is exactly 0 for groups of at most one sample, and for larger
groups squares to the population variance of the per-sample Mbps values —
the sum of squared deviations from the mean divided by N, not N-1. -/
theorem pstdev_population (samples : List Sample) (dir : String) :
    0 ≤ (direction_summary samples dir).bandwidth_mbps.std ∧
    ((mbpsOf samples dir).length ≤ 1 →
      (direction_summary samples dir).bandwidth_mbps.std = 0) ∧
    (1 < (mbpsOf samples dir).length →
      ((direction_summary samples dir).bandwidth_mbps.std) ^ 2 =
        (((mbpsOf samples dir).map
            (fun x : ℚ => ((x : ℝ) -
              ((mbpsOf samples dir).map (fun y : ℚ => (y : ℝ))).sum /
                (mbpsOf samples dir).length) ^ 2)).sum) /
          (mbpsOf samples dir).length) := by
  have hstd : (direction_summary samples dir).bandwidth_mbps.std
      = safe_pstdev (mbpsOf samples dir) := rfl
  refine ⟨?_, ?_, ?_⟩
  · rw [hstd]
    unfold safe_pstdev
    split
    · exact Real.sqrt_nonneg _
    · exact le_refl 0
  · intro h
    rw [hstd]
    unfold safe_pstdev
    rw [if_neg (by omega)]
  · intro h
    rw [hstd]
    unfold safe_pstdev
    rw [if_pos h, Real.sq_sqrt (by exact_mod_cast pvariance_nonneg _)]
    exact cast_pvariance _

/-- Witness for C9 on two uplink samples of 1 and 3 Mbps. -/
theorem pstdev_population_witness :
    ((direction_summary [⟨0, "uplink", 1000000, 0, 0⟩, ⟨1, "uplink", 3000000, 0, 0⟩]
        "uplink").bandwidth_mbps.std) ^ 2 =
      (((mbpsOf [⟨0, "uplink", 1000000, 0, 0⟩, ⟨1, "uplink", 3000000, 0, 0⟩]
          "uplink").map
          (fun x : ℚ => ((x : ℝ) -
            ((mbpsOf [⟨0, "uplink", 1000000, 0, 0⟩, ⟨1, "uplink", 3000000, 0, 0⟩]
                "uplink").map (fun y : ℚ => (y : ℝ))).sum /
              (mbpsOf [⟨0, "uplink", 1000000, 0, 0⟩, ⟨1, "uplink", 3000000, 0, 0⟩]
                "uplink").length) ^ 2)).sum) /
        (mbpsOf [⟨0, "uplink", 1000000, 0, 0⟩, ⟨1, "uplink", 3000000, 0, 0⟩]
          "uplink").length :=
  (pstdev_population [⟨0, "uplink", 1000000, 0, 0⟩, ⟨1, "uplink", 3000000, 0, 0⟩]
    "uplink").2.2 (by decide)

/-- Helper: every greedy-star split is a decomposition of the input into a
consumed class-run and the remainder. -/
theorem greedySplits_decomp (p : Char → Bool) :
    ∀ (cs : List Char) (q : List Char × List Char), q ∈ greedySplits p cs →
      cs = q.1 ++ q.2 ∧ q.1.all p = true := by
  intro cs
  induction cs with
  | nil =>
      intro q hq
      simp only [greedySplits, List.mem_singleton] at hq
      subst hq
      exact ⟨rfl, rfl⟩
  | cons c cs ih =>
      intro q hq
      unfold greedySplits at hq
      by_cases hp : p c = true
      · rw [if_pos hp] at hq
        rcases List.mem_append.mp hq with h | h
        · rcases List.mem_map.mp h with ⟨q', hq', rfl⟩
          obtain ⟨h1, h2⟩ := ih q' hq'
          refine ⟨?_, ?_⟩
          · show c :: cs = (c :: q'.1) ++ q'.2
            rw [List.cons_append, ← h1]
          · show (c :: q'.1).all p = true
            simp [List.all_cons, hp, h2]
        · simp only [List.mem_singleton] at h
          subst h
          exact ⟨rfl, rfl⟩
      · rw [if_neg hp] at hq
        simp only [List.mem_singleton] at hq
        subst hq
        exact ⟨rfl, rfl⟩

/-- Helper: every greedy-plus split is a non-empty such decomposition. -/
theorem greedyPlus_decomp (p : Char → Bool) (cs : List Char)
    (q : List Char × List Char) (hq : q ∈ greedyPlus p cs) :
    cs = q.1 ++ q.2 ∧ q.1.all p = true :=
  greedySplits_decomp p cs q (List.mem_of_mem_filter hq)

/-- Helper: a successful literal match leaves a suffix of its input. -/
theorem matchLit_decomp :
    ∀ (l cs r : List Char), matchLit l cs = some r → ∃ pre, cs = pre ++ r := by
  intro l
  induction l with
  | nil =>
      intro cs r h
      refine ⟨[], ?_⟩
      have : cs = r := by simpa [matchLit] using h
      rw [this]
      rfl
  | cons a l ih =>
      intro cs r h
      cases cs with
      | nil => simp [matchLit] at h
      | cons c cs' =>
          unfold matchLit at h
          by_cases hc : ciEq a c = true
          · rw [if_pos hc] at h
            obtain ⟨pre, hpre⟩ := ih cs' r h
            exact ⟨c :: pre, by rw [List.cons_append, ← hpre]⟩
          · rw [if_neg hc] at h
            cases h

/-- Helper: a successful one-character literal match consumes exactly one
case-matching character. -/
theorem matchLit_single (ch : Char) (cs r : List Char)
    (h : matchLit [ch] cs = some r) : ∃ c, cs = c :: r ∧ ciEq ch c = true := by
  cases cs with
  | nil => simp [matchLit] at h
  | cons c cs' =>
      unfold matchLit at h
      by_cases hc : ciEq ch c = true
      · rw [if_pos hc] at h
        have : cs' = r := by simpa [matchLit] using h
        exact ⟨c, by rw [this], hc⟩
      · rw [if_neg hc] at h
        cases h

/-- Helper: only the percent sign itself case-folds onto the percent sign. -/
theorem ciEq_pct (c : Char) (h : ciEq '%' c = true) : c = '%' := by
  unfold ciEq at h
  rw [beq_iff_eq] at h
  have h' : lowerCode c.toNat = 37 := by rw [← h]; rfl
  unfold lowerCode at h'
  by_cases hc : 65 ≤ c.toNat ∧ c.toNat ≤ 90
  · rw [if_pos hc] at h'
    omega
  · rw [if_neg hc] at h'
    exact Char.ext (UInt32.ext h')

/-- Helper: only the closing parenthesis itself case-folds onto it. -/
theorem ciEq_rparen (c : Char) (h : ciEq ')' c = true) : c = ')' := by
  unfold ciEq at h
  rw [beq_iff_eq] at h
  have h' : lowerCode c.toNat = 41 := by rw [← h]; rfl
  unfold lowerCode at h'
  by_cases hc : 65 ≤ c.toNat ∧ c.toNat ≤ 90
  · rw [if_pos hc] at h'
    omega
  · rw [if_neg hc] at h'
    exact Char.ext (UInt32.ext h')

/-- Helper: inversion of a match starting with a literal token. -/
theorem runToks_lit_mem (s : String) (ts : List RTok) (cs : List Char)
    (m : List (List Char) × List Char) (hm : m ∈ runToks (RTok.lit s :: ts) cs) :
    ∃ r, matchLit s.toList cs = some r ∧ m ∈ runToks ts r := by
  cases hml : matchLit s.toList cs with
  | none =>
      rw [show runToks (RTok.lit s :: ts) cs = [] from by
        conv_lhs => unfold runToks
        rw [hml]] at hm
      cases hm
  | some r =>
      refine ⟨r, rfl, ?_⟩
      rw [show runToks (RTok.lit s :: ts) cs = runToks ts r from by
        conv_lhs => unfold runToks
        rw [hml]] at hm
      exact hm

/-- Helper: inversion of a match starting with a star token. -/
theorem runToks_star_mem (c : CClass) (ts : List RTok) (cs : List Char)
    (m : List (List Char) × List Char) (hm : m ∈ runToks (RTok.star c :: ts) cs) :
    ∃ q, q ∈ greedySplits (cmem c) cs ∧ m ∈ runToks ts q.2 := by
  unfold runToks at hm
  exact List.mem_flatMap.mp hm

/-- Helper: inversion of a match starting with a plus token: some split feeds
the rest of the tokens. -/
theorem runToks_plus_mem (c : CClass) (cap : Bool) (ts : List RTok) (cs : List Char)
    (m : List (List Char) × List Char) (hm : m ∈ runToks (RTok.plus c cap :: ts) cs) :
    ∃ q, q ∈ greedyPlus (cmem c) cs ∧ ∃ m', m' ∈ runToks ts q.2 := by
  unfold runToks at hm
  obtain ⟨q, hq, hmq⟩ := List.mem_flatMap.mp hm
  refine ⟨q, hq, ?_⟩
  cases cap with
  | true =>
      have hmq' : m ∈ (runToks ts q.2).map (fun m => (q.1 :: m.1, m.2)) := hmq
      obtain ⟨m', hm', _⟩ := List.mem_map.mp hmq'
      exact ⟨m', hm'⟩
  | false => exact ⟨m, hmq⟩

/-- Helper: inversion of a match starting with the decimal token. -/
theorem runToks_decimal_mem (ts : List RTok) (cs : List Char)
    (m : List (List Char) × List Char) (hm : m ∈ runToks (RTok.decimal :: ts) cs) :
    ∃ q, q ∈ greedyPlus (cmem CClass.digit) cs ∧ ∃ r2, q.2 = '.' :: r2 ∧
      ∃ q2, q2 ∈ greedyPlus (cmem CClass.digit) r2 ∧ ∃ m', m' ∈ runToks ts q2.2 := by
  unfold runToks at hm
  obtain ⟨q, hq, hmq⟩ := List.mem_flatMap.mp hm
  refine ⟨q, hq, ?_⟩
  cases hq2 : q.2 with
  | nil =>
      rw [hq2] at hmq
      cases hmq
  | cons d r2 =>
      rw [hq2] at hmq
      have hmq' : m ∈ (if d = '.' then
          (greedyPlus (cmem CClass.digit) r2).flatMap (fun q2 =>
            (runToks ts q2.2).map (fun m => ((q.1 ++ '.' :: q2.1) :: m.1, m.2)))
        else []) := hmq
      by_cases hd : d = '.'
      · subst hd
        rw [if_pos rfl] at hmq'
        obtain ⟨q2, hq2', hmq2⟩ := List.mem_flatMap.mp hmq'
        obtain ⟨m', hm', _⟩ := List.mem_map.mp hmq2
        exact ⟨r2, rfl, q2, hq2', m', hm'⟩
      · rw [if_neg hd] at hmq'
        cases hmq'

/-- Helper: inversion of a match starting with the end anchor. -/
theorem runToks_end_mem (ts : List RTok) (cs : List Char)
    (m : List (List Char) × List Char) (hm : m ∈ runToks (RTok.endAnchor :: ts) cs) :
    (cs = [] ∨ cs = ['\n']) ∧ m ∈ runToks ts cs := by
  unfold runToks at hm
  by_cases hcond : cs = [] ∨ cs = ['\n']
  · rw [if_pos hcond] at hm
    exact ⟨hcond, hm⟩
  · rw [if_neg hcond] at hm
    cases hm

/-- Helper: any match of tokens ending in the pattern's closing tail consumes
a percent sign and a closing parenthesis followed only by blanks (and the line
end). This is the structural core behind the end anchoring of the pattern. -/
theorem runToks_tail_decomp :
    ∀ (ts : List RTok) (cs : List Char) (m : List (List Char) × List Char),
      m ∈ runToks (ts ++ RX_TAIL) cs →
      ∃ pre w, cs = pre ++ '%' :: ')' :: w ∧ w.all (cmem CClass.ws) = true := by
  intro ts
  induction ts with
  | nil =>
      intro cs m hm
      have hm' : m ∈ runToks
          (RTok.lit "%" :: RTok.lit ")" :: RTok.star CClass.ws :: RTok.endAnchor :: [])
          cs := hm
      obtain ⟨r1, hml1, hm1⟩ := runToks_lit_mem "%" _ cs m hm'
      obtain ⟨c1, hcs, hc1⟩ := matchLit_single '%' cs r1 hml1
      obtain ⟨r2, hml2, hm2⟩ := runToks_lit_mem ")" _ r1 m hm1
      obtain ⟨c2, hr1, hc2⟩ := matchLit_single ')' r1 r2 hml2
      obtain ⟨q, hq, hmq⟩ := runToks_star_mem CClass.ws _ r2 m hm2
      obtain ⟨hcond, _⟩ := runToks_end_mem [] q.2 m hmq
      obtain ⟨hr2, hall⟩ := greedySplits_decomp (cmem CClass.ws) r2 q hq
      refine ⟨[], q.1 ++ q.2, ?_, ?_⟩
      · rw [hcs, ciEq_pct c1 hc1, hr1, ciEq_rparen c2 hc2, hr2]
        rfl
      · rcases hcond with h | h <;> simp [List.all_append, hall, h, cmem]
  | cons t ts ih =>
      intro cs m hm
      rw [List.cons_append] at hm
      cases t with
      | lit s =>
          obtain ⟨r, hml, hm1⟩ := runToks_lit_mem s _ cs m hm
          obtain ⟨pre0, hpre0⟩ := matchLit_decomp s.toList cs r hml
          obtain ⟨pre, w, hw, hall⟩ := ih r m hm1
          exact ⟨pre0 ++ pre, w, by rw [hpre0, hw, List.append_assoc], hall⟩
      | star c =>
          obtain ⟨q, hq, hm1⟩ := runToks_star_mem c _ cs m hm
          have hdec := (greedySplits_decomp _ cs q hq).1
          obtain ⟨pre, w, hw, hall⟩ := ih q.2 m hm1
          exact ⟨q.1 ++ pre, w, by rw [hdec, hw, List.append_assoc], hall⟩
      | plus c cap =>
          obtain ⟨q, hq, m', hm1⟩ := runToks_plus_mem c cap _ cs m hm
          have hdec := (greedyPlus_decomp _ cs q hq).1
          obtain ⟨pre, w, hw, hall⟩ := ih q.2 m' hm1
          exact ⟨q.1 ++ pre, w, by rw [hdec, hw, List.append_assoc], hall⟩
      | decimal =>
          obtain ⟨q, hq, r2, hq2, q2, hq2', m', hm1⟩ := runToks_decimal_mem _ cs m hm
          have hdec := (greedyPlus_decomp _ cs q hq).1
          have hdec2 := (greedyPlus_decomp _ r2 q2 hq2').1
          obtain ⟨pre, w, hw, hall⟩ := ih q2.2 m' hm1
          refine ⟨q.1 ++ '.' :: (q2.1 ++ pre), w, ?_, hall⟩
          rw [hdec, hq2, hdec2, hw]
          simp [List.append_assoc, List.cons_append]
      | endAnchor =>
          obtain ⟨_, hm1⟩ := runToks_end_mem _ cs m hm
          exact ih cs m hm1

/-- Helper: a successful search leaves only blanks after the loss
parenthetical: every matched line is some prefix, then the percent sign and
the closing parenthesis, then whitespace up to the end of the line. -/
theorem rxSearch_shape :
    ∀ (cs : List Char) (gs : List (List Char)), rxSearch cs = some gs →
      ∃ pre w, cs = pre ++ '%' :: ')' :: w ∧ w.all (cmem CClass.ws) = true := by
  intro cs
  induction cs with
  | nil =>
      intro gs h
      unfold rxSearch at h
      cases hh : (runToks RX_CLI_RECV_INTERVAL []).head? with
      | none => rw [hh] at h; cases h
      | some m =>
          have hm : m ∈ runToks RX_CLI_RECV_INTERVAL [] :=
            List.mem_of_mem_head? (by rw [hh]; rfl)
          exact runToks_tail_decomp RX_INIT [] m hm
  | cons c cs ih =>
      intro gs h
      unfold rxSearch at h
      cases hh : (runToks RX_CLI_RECV_INTERVAL (c :: cs)).head? with
      | some m =>
          have hm : m ∈ runToks RX_CLI_RECV_INTERVAL (c :: cs) :=
            List.mem_of_mem_head? (by rw [hh]; rfl)
          exact runToks_tail_decomp RX_INIT (c :: cs) m hm
      | none =>
          rw [hh] at h
          obtain ⟨pre, w, hw, hall⟩ := ih gs h
          exact ⟨c :: pre, w, by rw [List.cons_append, ← hw], hall⟩

/-- Helper: parsing an empty line list returns the accumulated tuples. -/
theorem parsePoints_nil (acc : List Point) : parsePoints [] acc = some acc := rfl

/-- Helper: a line the pattern does not match anywhere is skipped. -/
theorem parsePoints_cons_none (line : String) (rest : List String) (acc : List Point)
    (hs : rxSearch line.toList = none) :
    parsePoints (line :: rest) acc = parsePoints rest acc := by
  conv_lhs => unfold parsePoints
  rw [hs]

/-- Helper: a matched line whose groups convert appends one tuple. -/
theorem parsePoints_cons_some (line : String) (rest : List String) (acc : List Point)
    (gs : List (List Char)) (pt : Point)
    (hs : rxSearch line.toList = some gs) (hp : pointOfGroups gs = some pt) :
    parsePoints (line :: rest) acc = parsePoints rest (acc ++ [pt]) := by
  conv_lhs => unfold parsePoints
  simp only [hs, hp]

set_option maxRecDepth 8000

/-- C5: the example receiver line parses to exactly the tuple
start 2.0, end 3.0, bandwidth 10.5 Mbps, jitter 3.2 ms, loss 2.4 percent;
the same line without the loss parenthetical, or with trailing text after it,
matches nothing and yields no tuple; and in general a line without a percent
character never matches, while every line the pattern does match carries, after
the matched loss parenthetical, nothing but whitespace up to the line end. -/
theorem receiver_line_grammar :
    parse_receiver_interval_lines
        "[ 5]   2.00-3.00  sec  1.25 MBytes  10.5 Mbits/sec  3.200 ms  12/500 (2.4%)" =
      some [⟨2, 3, 21/2, 16/5, 12/5⟩] ∧
    parse_receiver_interval_lines
        "[ 5]   2.00-3.00  sec  1.25 MBytes  10.5 Mbits/sec  3.200 ms  12/500" =
      some [] ∧
    parse_receiver_interval_lines
        "[ 5]   2.00-3.00  sec  1.25 MBytes  10.5 Mbits/sec  3.200 ms  12/500 (2.4%)  receiver" =
      some [] ∧
    (∀ line : String, '%' ∉ line.toList → rxSearch line.toList = none) ∧
    (∀ (line : String) (gs : List (List Char)), rxSearch line.toList = some gs →
      ∃ pre w, line.toList = pre ++ '%' :: ')' :: w ∧ w.all (cmem CClass.ws) = true) := by
  have hshape : ∀ (line : String) (gs : List (List Char)),
      rxSearch line.toList = some gs →
      ∃ pre w, line.toList = pre ++ '%' :: ')' :: w ∧ w.all (cmem CClass.ws) = true :=
    fun line gs h => rxSearch_shape line.toList gs h
  refine ⟨?_, by decide, by decide, ?_, hshape⟩
  · have p1 : parseFloatQ ['2', '.', '0', '0'] = some 2 := by
      unfold parseFloatQ
      rw [if_pos (by decide)]
      norm_num [List.dropWhile, List.takeWhile, digitsVal, List.foldl,
        show ('0' == '.') = false from rfl, show ('2' == '.') = false from rfl,
        show '0'.toNat = 48 from rfl, show '2'.toNat = 50 from rfl]
    have p2 : parseFloatQ ['3', '.', '0', '0'] = some 3 := by
      unfold parseFloatQ
      rw [if_pos (by decide)]
      norm_num [List.dropWhile, List.takeWhile, digitsVal, List.foldl,
        show ('0' == '.') = false from rfl, show ('3' == '.') = false from rfl,
        show '0'.toNat = 48 from rfl, show '3'.toNat = 51 from rfl]
    have p4 : parseFloatQ ['1', '0', '.', '5'] = some (21/2) := by
      unfold parseFloatQ
      rw [if_pos (by decide)]
      norm_num [List.dropWhile, List.takeWhile, digitsVal, List.foldl,
        show ('0' == '.') = false from rfl, show ('1' == '.') = false from rfl,
        show '0'.toNat = 48 from rfl, show '1'.toNat = 49 from rfl,
        show '5'.toNat = 53 from rfl]
    have p5 : parseFloatQ ['3', '.', '2', '0', '0'] = some (16/5) := by
      unfold parseFloatQ
      rw [if_pos (by decide)]
      norm_num [List.dropWhile, List.takeWhile, digitsVal, List.foldl,
        show ('3' == '.') = false from rfl,
        show '0'.toNat = 48 from rfl, show '2'.toNat = 50 from rfl,
        show '3'.toNat = 51 from rfl]
    have p8 : parseFloatQ ['2', '.', '4'] = some (12/5) := by
      unfold parseFloatQ
      rw [if_pos (by decide)]
      norm_num [List.dropWhile, List.takeWhile, digitsVal, List.foldl,
        show ('2' == '.') = false from rfl,
        show '2'.toNat = 50 from rfl, show '4'.toNat = 52 from rfl]
    have hpt : pointOfGroups [['2', '.', '0', '0'], ['3', '.', '0', '0'],
        ['1', '.', '2', '5'], ['1', '0', '.', '5'], ['3', '.', '2', '0', '0'],
        ['1', '2'], ['5', '0', '0'], ['2', '.', '4']] =
        some ⟨2, 3, 21/2, 16/5, 12/5⟩ := by
      simp only [pointOfGroups, p1, p2, p4, p5, p8,
        if_pos (show (0 : ℕ) < digitsVal ['5', '0', '0'] from by decide)]
    unfold parse_receiver_interval_lines
    rw [if_neg (by decide),
      (by decide : splitlines
        "[ 5]   2.00-3.00  sec  1.25 MBytes  10.5 Mbits/sec  3.200 ms  12/500 (2.4%)" =
        ["[ 5]   2.00-3.00  sec  1.25 MBytes  10.5 Mbits/sec  3.200 ms  12/500 (2.4%)"]),
      parsePoints_cons_some _ _ _ _ _ (by decide) hpt, parsePoints_nil]
    rfl
  · intro line hline
    cases hx : rxSearch line.toList with
    | none => rfl
    | some gs =>
        obtain ⟨pre, w, hw, _⟩ := hshape line gs hx
        exact absurd
          (by rw [hw]; exact List.mem_append.mpr (Or.inr (List.mem_cons_self _ _)))
          hline

/-- Witness for C5: the universal no-percent conjunct applied to a concrete
line with no percent character. -/
theorem receiver_line_grammar_witness :
    rxSearch "iperf Done.".toList = none :=
  receiver_line_grammar.2.2.2.1 "iperf Done." (by decide)
